import Mathlib

/-!
Verification of `ubuntu_image_fetcher.py` (class `UbuntuImageFetcher`).

The Python program is embedded shallowly:

*  byte strings are `List Nat`;
*  the MD5 digest is an arbitrary function parameter `md5 : List Nat → String`
   (every property below holds for any deterministic digest);
*  an HTTP response is a record of the final URL, the two inspected headers and
   the body; the network is a function `net : String → Option Response`, where
   `none` models any `requests.exceptions.RequestException`
   (connection/timeout/DNS failure or a non-2xx status raised by
   `raise_for_status`);
*  the collection directory is the list of `(filename, content)` pairs in the
   fetcher state, and file writes either succeed atomically or raise
   (`writeOk : String → Bool`);
*  Python library helpers used by the source (`str.lower`, `str.strip`,
   `int(...)`, the `in` substring test, `os.path.splitext`, `os.path.basename`,
   `urllib.parse.urlparse(...).path`) are modelled by the string functions
   below, faithful to CPython on ASCII inputs.
-/

/-- Substring occurrence on character lists: models the Python `in` test. -/
def listHasSub (needle : List Char) : List Char → Bool
  | [] => needle.isEmpty
  | c :: cs => needle.isPrefixOf (c :: cs) || listHasSub needle cs

/-- Models Python `sub in hay` for strings. -/
def strHasSub (hay sub : String) : Bool := listHasSub sub.data hay.data

/-- Models Python `str.lower()` (ASCII case folding). -/
def pyLower (s : String) : String := String.mk (s.data.map Char.toLower)

/-- Index of the last occurrence of `c`, if any. -/
def lastIdx (c : Char) : List Char → Option Nat
  | [] => none
  | a :: as =>
    match lastIdx c as with
    | some i => some (i + 1)
    | none => if a = c then some 0 else none

/-- Models `os.path.splitext` (POSIX): the extension starts at the last dot of
the last path component, unless that component consists only of leading dots
up to there. -/
def splitext (p : String) : String × String :=
  let cs := p.data
  let sepStart := match lastIdx '/' cs with | some i => i + 1 | none => 0
  match lastIdx '.' cs with
  | none => (p, "")
  | some d =>
    if sepStart ≤ d && ((cs.drop sepStart).take (d - sepStart)).any (fun a => a ≠ '.')
    then (String.mk (cs.take d), String.mk (cs.drop d))
    else (p, "")

/-- Models `os.path.basename` (POSIX): everything after the last slash. -/
def basename (p : String) : String :=
  match lastIdx '/' p.data with
  | some i => String.mk (p.data.drop (i + 1))
  | none => p

/-- Characters allowed in a URL scheme after the leading letter. -/
def isSchemeChar (c : Char) : Bool := c.isAlphanum || c = '+' || c = '-' || c = '.'

/-- Drop a leading `scheme:` part, as `urllib.parse.urlsplit` does. -/
def dropScheme (cs : List Char) : List Char :=
  let hd := cs.takeWhile (fun c => c ≠ ':')
  if hd.length < cs.length &&
      (match hd with | [] => false | a :: as => a.isAlpha && as.all isSchemeChar)
  then cs.drop (hd.length + 1) else cs

/-- Models `urllib.parse.urlparse(url).path`: strip the fragment, the scheme,
a `//netloc` part, and the query. -/
def urlPath (url : String) : String :=
  let cs := url.data.takeWhile (fun c => c ≠ '#')
  let r := dropScheme cs
  let r2 :=
    match r with
    | '/' :: '/' :: rest => rest.dropWhile (fun c => c ≠ '/' && c ≠ '?')
    | _ => r
  String.mk (r2.takeWhile (fun c => c ≠ '?'))

/-- Numeric value of an ASCII digit character. -/
def digitVal (c : Char) : Nat := c.toNat - 48

/-- Digits (with CPython underscore grouping) after the first digit. -/
def digitsAfter : Nat → List Char → Option Nat
  | acc, [] => some acc
  | acc, '_' :: c :: rest =>
    if c.isDigit then digitsAfter (acc * 10 + digitVal c) rest else none
  | _, '_' :: [] => none
  | acc, c :: rest =>
    if c.isDigit then digitsAfter (acc * 10 + digitVal c) rest else none

/-- Value of a nonempty digit group list. -/
def digitsVal : List Char → Option Nat
  | [] => none
  | c :: rest => if c.isDigit then digitsAfter (digitVal c) rest else none

/-- Models CPython `int(s)` on ASCII decimal strings: optional surrounding
whitespace, an optional sign, then a nonempty digit sequence with optional
single underscores between digits; `none` models a raised `ValueError`. -/
def pyInt (s : String) : Option Int :=
  let cs := ((s.data.dropWhile Char.isWhitespace).reverse.dropWhile Char.isWhitespace).reverse
  match cs with
  | '+' :: rest => (digitsVal rest).map (fun n => (n : Int))
  | '-' :: rest => (digitsVal rest).map (fun n => -(n : Int))
  | rest => (digitsVal rest).map (fun n => (n : Int))

/-- An HTTP response as the pipeline sees it: `url` is `response.url` (the
final URL), the two header fields are `headers.get(...)` results, `body` is
`response.content`. -/
structure Response where
  url : String
  contentType : Option String
  contentLength : Option String
  body : List Nat
deriving DecidableEq

/-- Verdict of the content-length stage (lines 98 to 101 of the source). -/
inductive SizeVerdict where
  | sizeReject
  | sizeErr
  | sizePass
deriving DecidableEq

/-- Lines 98 to 101: the content-length header is read with `headers.get` and
checked with `if content_length and int(content_length) > 10 * 1024 * 1024`. A missing
header and an empty header string are both falsy, so they skip the check; a
non-numeric nonempty value makes `int` raise (`sizeErr`). -/
def size_stage (cl : Option String) : SizeVerdict :=
  match cl with
  | none => .sizePass
  | some s =>
    if s = "" then .sizePass
    else
      match pyInt s with
      | none => .sizeErr
      | some n => if (10 * 1024 * 1024 : Int) < n then .sizeReject else .sizePass

/-- The MIME allow-list of `is_safe_file_type`. -/
def safe_types : List String :=
  ["image/jpeg", "image/jpg", "image/png", "image/gif", "image/webp", "image/bmp"]

/-- The extension allow-list of `is_safe_file_type`. -/
def safe_extensions : List String :=
  [".jpg", ".jpeg", ".png", ".gif", ".webp", ".bmp"]

/-- Lines 36 to 56, method `is_safe_file_type`: the lowercased content-type,
when nonempty, must contain one of the allow-listed MIME strings, and the
lowercased extension of the response URL path, when nonempty, must be one of
the allow-listed extensions. -/
def is_safe_file_type (r : Response) : Bool :=
  let content_type := pyLower (r.contentType.getD "")
  if content_type != "" && !(safe_types.any (fun t => strHasSub content_type t)) then
    false
  else
    let file_extension := pyLower (splitext (urlPath r.url)).2
    if file_extension != "" && !(safe_extensions.contains file_extension) then
      false
    else
      true

/-- Lines 58 to 79, method `get_filename_from_url`: the last component of the
request URL path, or a synthesized `downloaded_image` name with an extension
chosen from the (not lowercased) content-type. -/
def get_filename_from_url (url : String) (r : Response) : String :=
  let filename := basename (urlPath url)
  if filename == "" || !(strHasSub filename ".") then
    let content_type := r.contentType.getD "image/jpeg"
    let extension :=
      if strHasSub content_type "jpeg" || strHasSub content_type "jpg" then ".jpg"
      else if strHasSub content_type "png" then ".png"
      else if strHasSub content_type "gif" then ".gif"
      else if strHasSub content_type "webp" then ".webp"
      else ".jpg"
    "downloaded_image" ++ extension
  else filename

/-- The probed candidate name `f"{base_name}_{counter}{extension}"`. -/
def probe (b extn : String) (n : Nat) : String := b ++ "_" ++ Nat.repr n ++ extn

/-- The `while os.path.exists(filepath)` loop of lines 121 to 126, with
explicit fuel; `names` is the set of filenames existing in the download
directory, so `os.path.exists(os.path.join(dir, f))` is `f ∈ names`. -/
def unique_loop (names : List String) (b extn : String) : Nat → Nat → String
  | 0, counter => probe b extn counter
  | fuel + 1, counter =>
    if probe b extn counter ∈ names then unique_loop names b extn fuel (counter + 1)
    else probe b extn counter

/-- Lines 118 to 126: keep the desired filename when free, else probe
`base_1.ext`, `base_2.ext`, and so on. The fuel `names.length + 1` is enough:
the probed names are pairwise distinct, so one of the first
`names.length + 1` of them is free (proved below). -/
def reserveUniquePath (names : List String) (filename : String) : String :=
  if filename ∈ names then
    unique_loop names (splitext filename).1 (splitext filename).2 (names.length + 1) 1
  else filename

/-- Which branch of `download_single_image` produced the result. The Python
method collapses this to a printed message plus a boolean (`outcome_bool`);
`intError` and `writeFail` are both swallowed by the same
`except Exception` handler. -/
inductive Outcome where
  | netError
  | intError
  | tooLarge
  | badType
  | duplicate
  | accepted (filename : String)
  | writeFail
deriving DecidableEq

/-- The boolean actually returned by `download_single_image`. -/
def outcome_bool : Outcome → Bool
  | .duplicate => true
  | .accepted _ => true
  | _ => false

/-- The mutable fetcher state: the download directory contents and
`self.downloaded_hashes`. -/
structure FetcherState where
  files : List (String × List Nat)
  hashes : List String
deriving DecidableEq

/-- Lines 31 to 34, method `is_duplicate`. -/
def is_duplicate (md5 : List Nat → String) (hashes : List String)
    (content : List Nat) : Bool :=
  decide (md5 content ∈ hashes)

/-- Lines 97 to 137 of `download_single_image`, after a successful request:
content-length check, type check, body read, duplicate check, naming, unique
path, write, hash insert. The middle component of the result records whether
`response.content` (line 109) was evaluated. -/
def process_response (md5 : List Nat → String) (writeOk : String → Bool)
    (st : FetcherState) (url : String) (r : Response) :
    Outcome × Bool × FetcherState :=
  match size_stage r.contentLength with
  | .sizeErr => (.intError, false, st)
  | .sizeReject => (.tooLarge, false, st)
  | .sizePass =>
    if !(is_safe_file_type r) then (.badType, false, st)
    else
      let content := r.body
      if is_duplicate md5 st.hashes content then (.duplicate, true, st)
      else
        let filename := get_filename_from_url url r
        let uniq := reserveUniquePath (st.files.map Prod.fst) filename
        if writeOk uniq then
          (.accepted uniq, true,
            { files := st.files ++ [(uniq, content)]
              hashes := List.insert (md5 content) st.hashes })
        else (.writeFail, true, st)

/-- Lines 81 to 144, method `download_single_image`: a failed request is
`netError`; otherwise the staged processing above runs. -/
def download_single_image (md5 : List Nat → String) (net : String → Option Response)
    (writeOk : String → Bool) (st : FetcherState) (url : String) :
    Outcome × Bool × FetcherState :=
  match net url with
  | none => (.netError, false, st)
  | some r => process_response md5 writeOk st url r

/-- Lines 146 to 157, method `download_multiple_images`: strip each URL, skip
blanks, count the calls that returned true. -/
def download_multiple_images (md5 : List Nat → String) (net : String → Option Response)
    (writeOk : String → Bool) : List String → FetcherState → Nat × FetcherState
  | [], st => (0, st)
  | url :: rest, st =>
    let u := url.trim
    if u == "" then download_multiple_images md5 net writeOk rest st
    else
      let step := download_single_image md5 net writeOk st u
      let tail := download_multiple_images md5 net writeOk rest step.2.2
      (tail.1 + (if outcome_bool step.1 then 1 else 0), tail.2)

/-- Instrumented variant of `download_multiple_images` recording the outcome
of every attempted (non-blank) URL, in order. -/
def download_outcomes (md5 : List Nat → String) (net : String → Option Response)
    (writeOk : String → Bool) : List String → FetcherState → List Outcome × FetcherState
  | [], st => ([], st)
  | url :: rest, st =>
    let u := url.trim
    if u == "" then download_outcomes md5 net writeOk rest st
    else
      let step := download_single_image md5 net writeOk st u
      let tail := download_outcomes md5 net writeOk rest step.2.2
      (step.1 :: tail.1, tail.2)

/-- One directory entry seen by `os.listdir`: a regular file with its content
(`none` when `open`/`read` raises) or a subdirectory. -/
inductive DirEntry where
  | file (name : String) (content : Option (List Nat))
  | subdir (name : String)
deriving DecidableEq

/-- One iteration of the scan loop in `load_existing_hashes`: hash readable
regular files, skip unreadable ones (`except: continue`) and directories. -/
def scan_step (md5 : List Nat → String) (hs : List String) : DirEntry → List String
  | .file _ (some c) => List.insert (md5 c) hs
  | .file _ none => hs
  | .subdir _ => hs

/-- Lines 14 to 25, method `load_existing_hashes`: when the directory exists,
fold the scan over its entries; otherwise the hash set stays empty. -/
def load_existing_hashes (md5 : List Nat → String) (dirExists : Bool)
    (entries : List DirEntry) : List String :=
  if dirExists then entries.foldl (scan_step md5) [] else []

/-- Startup: `UbuntuImageFetcher()` (lines 9 to 12) followed by
`os.makedirs(fetcher.download_dir, exist_ok=True)` (line 169 of `main`).
`mkdirOk` tells whether a needed directory creation succeeds; `none` models
the uncaught `OSError` that kills the process. The result carries the built
hash set and whether the directory exists afterwards. -/
def startup (md5 : List Nat → String) (dirExists : Bool) (entries : List DirEntry)
    (mkdirOk : Bool) : Option (List String × Bool) :=
  let hs := load_existing_hashes md5 dirExists entries
  if dirExists || mkdirOk then some (hs, true) else none

/-- Decimal digit list of a natural number, most significant first; reference
printer used to reason about `Nat.repr`. -/
def decDigits (n : Nat) : List Char :=
  if n < 10 then [Nat.digitChar n]
  else decDigits (n / 10) ++ [Nat.digitChar (n % 10)]
termination_by n
decreasing_by exact Nat.div_lt_self (by omega) (by omega)

/-- Value of a most-significant-first digit list; left inverse of `decDigits`. -/
def decVal (cs : List Char) : Nat :=
  cs.foldl (fun a c => a * 10 + digitVal c) 0

/-- Stated from the spec, for comparison with `is_safe_file_type`: a present
(nonempty) content-type header that contains no allow-listed MIME string. -/
def spec_ct_disallowed (r : Response) : Bool :=
  let ct := pyLower (r.contentType.getD "")
  ct != "" && !(safe_types.any (fun t => strHasSub ct t))

/-- Stated from the spec, for comparison with `is_safe_file_type`: a present
URL path extension outside the extension allow-list (case-insensitive). -/
def spec_ext_disallowed (r : Response) : Bool :=
  let e := pyLower (splitext (urlPath r.url)).2
  e != "" && !(safe_extensions.contains e)

theorem toDigitsCore_eq_decDigits :
    ∀ fuel n ds, n < fuel → Nat.toDigitsCore 10 fuel n ds = decDigits n ++ ds := by
  intro fuel
  induction fuel with
  | zero => intro n ds h; omega
  | succ f ih =>
    intro n ds h
    show (if n / 10 = 0 then Nat.digitChar (n % 10) :: ds
          else Nat.toDigitsCore 10 f (n / 10) (Nat.digitChar (n % 10) :: ds)) = _
    by_cases h0 : n / 10 = 0
    · have hn : n < 10 := (Nat.div_eq_zero_iff (by omega)).mp h0
      rw [if_pos h0, decDigits, if_pos hn, Nat.mod_eq_of_lt hn]
      simp
    · have hn : ¬ n < 10 := fun hlt => h0 ((Nat.div_eq_zero_iff (by omega)).mpr hlt)
      have hdiv : n / 10 < n := Nat.div_lt_self (by omega) (by omega)
      rw [if_neg h0, ih (n / 10) _ (by omega)]
      conv_rhs => rw [decDigits]
      rw [if_neg hn]
      simp

theorem repr_data_eq_decDigits (n : Nat) : (Nat.repr n).data = decDigits n := by
  show (List.asString (Nat.toDigitsCore 10 (n + 1) n [])).data = decDigits n
  rw [toDigitsCore_eq_decDigits (n + 1) n [] (Nat.lt_succ_self n)]
  simp [List.asString]

theorem digitVal_digitChar (d : Nat) (h : d < 10) : digitVal (Nat.digitChar d) = d := by
  interval_cases d <;> decide

theorem decVal_append_digit (cs : List Char) (c : Char) :
    decVal (cs ++ [c]) = decVal cs * 10 + digitVal c := by
  simp [decVal, List.foldl_append]

theorem decVal_decDigits (n : Nat) : decVal (decDigits n) = n := by
  induction n using Nat.strong_induction_on with
  | _ n ih =>
    rw [decDigits]
    by_cases h : n < 10
    · rw [if_pos h]
      show decVal ([] ++ [Nat.digitChar n]) = n
      rw [decVal_append_digit, digitVal_digitChar n h]
      simp [decVal]
    · rw [if_neg h, decVal_append_digit,
        ih (n / 10) (Nat.div_lt_self (by omega) (by omega)),
        digitVal_digitChar (n % 10) (Nat.mod_lt n (by omega))]
      omega

theorem natRepr_injective : Function.Injective Nat.repr := by
  intro m n h
  have hd : decDigits m = decDigits n := by
    rw [← repr_data_eq_decDigits, ← repr_data_eq_decDigits, h]
  have := congrArg decVal hd
  rwa [decVal_decDigits, decVal_decDigits] at this

theorem probe_injective (b extn : String) : Function.Injective (probe b extn) := by
  intro m n h
  unfold probe at h
  have hd := congrArg String.data h
  rw [String.data_append, String.data_append, String.data_append,
    String.data_append, String.data_append, String.data_append] at hd
  have h2 := List.append_cancel_right hd
  have h3 := List.append_cancel_left h2
  exact natRepr_injective (String.ext h3)

theorem exists_free_probe (names : List String) (b extn : String) :
    ∃ k, k ≤ names.length ∧ probe b extn (1 + k) ∉ names := by
  by_contra hc
  push_neg at hc
  have hsub : ((List.range (names.length + 1)).map (fun k => probe b extn (1 + k))) ⊆ names := by
    intro x hx
    rw [List.mem_map] at hx
    obtain ⟨k, hk, rfl⟩ := hx
    rw [List.mem_range] at hk
    exact hc k (by omega)
  have hinj : Function.Injective (fun k => probe b extn (1 + k)) := by
    intro a b2 hab
    have := probe_injective b extn hab
    omega
  have hnd := (List.nodup_range (names.length + 1)).map hinj
  have hlen := (hnd.subperm hsub).length_le
  simp at hlen

theorem unique_loop_correct (names : List String) (b extn : String) :
    ∀ fuel counter, (∃ k, k ≤ fuel ∧ probe b extn (counter + k) ∉ names) →
      ∃ N, counter ≤ N ∧ unique_loop names b extn fuel counter = probe b extn N ∧
        probe b extn N ∉ names ∧
        ∀ m, counter ≤ m → m < N → probe b extn m ∈ names := by
  intro fuel
  induction fuel with
  | zero =>
    intro counter h
    obtain ⟨k, hk, hfree⟩ := h
    have hk0 : k = 0 := by omega
    subst hk0
    refine ⟨counter, Nat.le_refl _, rfl, ?_, by omega⟩
    simpa using hfree
  | succ f ih =>
    intro counter h
    obtain ⟨k, hk, hfree⟩ := h
    by_cases hmem : probe b extn counter ∈ names
    · have hk0 : k ≠ 0 := by
        intro h0
        subst h0
        simp at hfree
        exact hfree hmem
      obtain ⟨N, hN1, hN2, hN3, hN4⟩ :=
        ih (counter + 1) ⟨k - 1, by omega, by
          have he : counter + 1 + (k - 1) = counter + k := by omega
          rw [he]; exact hfree⟩
      refine ⟨N, by omega, ?_, hN3, ?_⟩
      · show (if probe b extn counter ∈ names
            then unique_loop names b extn f (counter + 1)
            else probe b extn counter) = probe b extn N
        rw [if_pos hmem]
        exact hN2
      · intro m hm1 hm2
        rcases Nat.eq_or_lt_of_le hm1 with heq | hlt
        · rw [← heq]; exact hmem
        · exact hN4 m hlt hm2
    · refine ⟨counter, Nat.le_refl _, ?_, hmem, by omega⟩
      show (if probe b extn counter ∈ names
          then unique_loop names b extn f (counter + 1)
          else probe b extn counter) = probe b extn counter
      rw [if_neg hmem]

/-- Claim C4: `reserveUniquePath` returns the desired filename unchanged when
no file of that name exists; otherwise it returns `base_N.ext`, where
`(base, ext)` is the split of the desired filename and `N` is the smallest
integer at least 1 such that `base_N.ext` is unused; in all cases the result
is distinct from every existing name in the directory. -/
theorem reserveUniquePath_correct (names : List String) (filename : String) :
    (filename ∉ names → reserveUniquePath names filename = filename) ∧
    (filename ∈ names → ∃ N, 1 ≤ N ∧
      reserveUniquePath names filename =
        probe (splitext filename).1 (splitext filename).2 N ∧
      probe (splitext filename).1 (splitext filename).2 N ∉ names ∧
      ∀ m, 1 ≤ m → m < N →
        probe (splitext filename).1 (splitext filename).2 m ∈ names) ∧
    reserveUniquePath names filename ∉ names := by
  have hmain : filename ∈ names → ∃ N, 1 ≤ N ∧
      reserveUniquePath names filename =
        probe (splitext filename).1 (splitext filename).2 N ∧
      probe (splitext filename).1 (splitext filename).2 N ∉ names ∧
      ∀ m, 1 ≤ m → m < N →
        probe (splitext filename).1 (splitext filename).2 m ∈ names := by
    intro hin
    obtain ⟨k, hk, hfree⟩ := exists_free_probe names (splitext filename).1 (splitext filename).2
    obtain ⟨N, hN1, hN2, hN3, hN4⟩ :=
      unique_loop_correct names (splitext filename).1 (splitext filename).2
        (names.length + 1) 1 ⟨k, by omega, hfree⟩
    refine ⟨N, hN1, ?_, hN3, hN4⟩
    rw [reserveUniquePath, if_pos hin]
    exact hN2
  refine ⟨fun hout => by rw [reserveUniquePath, if_neg hout], hmain, ?_⟩
  by_cases hin : filename ∈ names
  · obtain ⟨N, _, heq, hfree, _⟩ := hmain hin
    rw [heq]
    exact hfree
  · rw [reserveUniquePath, if_neg hin]
    exact hin

/-- Witness for C4 at a concrete directory: with `a.png` and `a_1.png`
present, the desired name `a.png` collides and the probe settles on the
first free suffix. -/
theorem reserveUniquePath_correct_witness :
    ("a.png" ∈ (["a.png", "a_1.png"] : List String)) ∧
    reserveUniquePath ["a.png", "a_1.png"] "a.png" ∉ (["a.png", "a_1.png"] : List String) ∧
    reserveUniquePath ["a.png", "a_1.png"] "a.png" = "a_2.png" := by
  refine ⟨by decide, (reserveUniquePath_correct ["a.png", "a_1.png"] "a.png").2.2, by decide⟩


/-- Claim C7: a fetch rejected as too large or as a disallowed type never reads
the body; the body is pulled exactly for the fetches that reach the
deduplication stage (those ending as duplicate, accepted, or in a write
failure after the dedup check). -/
theorem rejected_before_body_read (md5 : List Nat → String)
    (net : String → Option Response) (w : String → Bool)
    (st : FetcherState) (url : String) :
    (((download_single_image md5 net w st url).1 = .tooLarge ∨
      (download_single_image md5 net w st url).1 = .badType) →
      (download_single_image md5 net w st url).2.1 = false) ∧
    ((download_single_image md5 net w st url).2.1 = true ↔
      ((download_single_image md5 net w st url).1 = .duplicate ∨
       (∃ f, (download_single_image md5 net w st url).1 = .accepted f) ∨
       (download_single_image md5 net w st url).1 = .writeFail)) := by
  unfold download_single_image
  cases hnet : net url with
  | none => simp
  | some r =>
    unfold process_response
    cases hs : size_stage r.contentLength
    · simp only [hs]
      simp
    · simp only [hs]
      simp
    · simp only [hs]
      split_ifs <;> simp

/-- Witness for C7 at a concrete rejected fetch: an oversized declared
content-length yields `tooLarge` with the body unread. -/
theorem rejected_before_body_read_witness :
    ((download_single_image (fun _ => "h")
        (fun _ => some ⟨"http://x/a.png", some "image/png", some "10485761", [1]⟩)
        (fun _ => true) ⟨[], []⟩ "u").1 = Outcome.tooLarge ∨
     (download_single_image (fun _ => "h")
        (fun _ => some ⟨"http://x/a.png", some "image/png", some "10485761", [1]⟩)
        (fun _ => true) ⟨[], []⟩ "u").1 = Outcome.badType) ∧
    (download_single_image (fun _ => "h")
        (fun _ => some ⟨"http://x/a.png", some "image/png", some "10485761", [1]⟩)
        (fun _ => true) ⟨[], []⟩ "u").2.1 = false := by
  refine ⟨by decide, ?_⟩
  exact (rejected_before_body_read (fun _ => "h")
    (fun _ => some ⟨"http://x/a.png", some "image/png", some "10485761", [1]⟩)
    (fun _ => true) ⟨[], []⟩ "u").1 (by decide)

/-- Claim C10: the fetcher state (directory contents and hash set) is mutated
exactly by an accepted fetch, which appends the written file and inserts the
hash of the fetched body; every other outcome leaves the state untouched. -/
theorem state_mutation_iff_accepted (md5 : List Nat → String)
    (net : String → Option Response) (w : String → Bool)
    (st : FetcherState) (url : String) :
    ((∀ f, (download_single_image md5 net w st url).1 ≠ .accepted f) →
      (download_single_image md5 net w st url).2.2 = st) ∧
    (∀ f, (download_single_image md5 net w st url).1 = .accepted f →
      ∃ r, net url = some r ∧ md5 r.body ∉ st.hashes ∧
        (download_single_image md5 net w st url).2.2 =
          { files := st.files ++ [(f, r.body)]
            hashes := List.insert (md5 r.body) st.hashes }) := by
  unfold download_single_image
  cases hnet : net url with
  | none => simp
  | some r =>
    unfold process_response
    cases hs : size_stage r.contentLength
    · simp only [hs]
      simp
    · simp only [hs]
      simp
    · simp only [hs]
      split_ifs with h1 h2 h3
      · simp
      · simp
      · constructor
        · intro hne
          exact absurd rfl (hne (reserveUniquePath (st.files.map Prod.fst)
            (get_filename_from_url url r)))
        · intro f hf
          simp only [Prod.fst] at hf
          have hf2 : reserveUniquePath (st.files.map Prod.fst)
              (get_filename_from_url url r) = f := by
            injection hf
          refine ⟨r, rfl, ?_, ?_⟩
          · simpa [is_duplicate] using h2
          · simp only [hf2]
      · simp

/-- Witness for C10 at a concrete rejected fetch (content-type `text/html`):
no outcome is `accepted`, so the state is returned untouched. -/
theorem state_mutation_iff_accepted_witness :
    (download_single_image (fun _ => "h")
        (fun _ => some ⟨"http://x/a.png", some "text/html", none, [1]⟩)
        (fun _ => true) ⟨[], []⟩ "u").2.2 = (⟨[], []⟩ : FetcherState) :=
  (state_mutation_iff_accepted (fun _ => "h")
    (fun _ => some ⟨"http://x/a.png", some "text/html", none, [1]⟩)
    (fun _ => true) ⟨[], []⟩ "u").1 (by
      intro f h
      rw [show (download_single_image (fun _ => "h")
        (fun _ => some ⟨"http://x/a.png", some "text/html", none, [1]⟩)
        (fun _ => true) ⟨[], []⟩ "u").1 = Outcome.badType by decide] at h
      exact Outcome.noConfusion h)

/-- Claim C2: with a successful request, a declared content-length that parses
to `n` makes the fetch end as `tooLarge` exactly when `n` strictly exceeds
10 MiB; a `tooLarge` rejection never reads the body; and a response without
the header is never rejected by this stage. -/
theorem size_limit_boundary (md5 : List Nat → String)
    (net : String → Option Response) (w : String → Bool)
    (st : FetcherState) (url : String) (r : Response)
    (hnet : net url = some r) :
    (∀ s n, r.contentLength = some s → pyInt s = some n →
      ((download_single_image md5 net w st url).1 = .tooLarge ↔
        (10 * 1024 * 1024 : Int) < n)) ∧
    ((download_single_image md5 net w st url).1 = .tooLarge →
      (download_single_image md5 net w st url).2.1 = false) ∧
    (r.contentLength = none →
      (download_single_image md5 net w st url).1 ≠ .tooLarge) := by
  refine ⟨?_, ?_, ?_⟩
  · intro s n hcl hparse
    have hs0 : s ≠ "" := by
      intro h0
      rw [h0] at hparse
      rw [show pyInt "" = none from rfl] at hparse
      exact Option.noConfusion hparse
    simp only [download_single_image, hnet, process_response]
    rw [hcl]
    simp only [size_stage, if_neg hs0, hparse]
    by_cases hlt : (10 * 1024 * 1024 : Int) < n
    · rw [if_pos hlt]
      simpa using hlt
    · rw [if_neg hlt]
      constructor
      · intro hcontra
        revert hcontra
        split_ifs <;> simp
      · intro hn
        exact absurd hn hlt
  · simp only [download_single_image, hnet, process_response]
    cases hs : size_stage r.contentLength
    · simp only [hs]
      simp
    · simp only [hs]
      simp
    · simp only [hs]
      split_ifs <;> simp
  · intro hcl
    simp only [download_single_image, hnet, process_response]
    rw [hcl]
    simp only [size_stage]
    split_ifs <;> simp

/-- Witness for C2: the 10 MiB boundary is inclusive (exactly 10485760 passes
the stage) and 10485761 is rejected as too large. -/
theorem size_limit_boundary_witness :
    ((download_single_image (fun _ => "h")
        (fun _ => some ⟨"http://x/a.png", some "image/png", some "10485761", [1]⟩)
        (fun _ => true) ⟨[], []⟩ "u").1 = Outcome.tooLarge ↔
      (10 * 1024 * 1024 : Int) < 10485761) ∧
    ((download_single_image (fun _ => "h")
        (fun _ => some ⟨"http://x/a.png", some "image/png", some "10485760", [1]⟩)
        (fun _ => true) ⟨[], []⟩ "v").1 = Outcome.tooLarge ↔
      (10 * 1024 * 1024 : Int) < 10485760) := by
  constructor
  · exact (size_limit_boundary (fun _ => "h")
      (fun _ => some ⟨"http://x/a.png", some "image/png", some "10485761", [1]⟩)
      (fun _ => true) ⟨[], []⟩ "u" _ rfl).1 "10485761" 10485761 rfl (by decide)
  · exact (size_limit_boundary (fun _ => "h")
      (fun _ => some ⟨"http://x/a.png", some "image/png", some "10485760", [1]⟩)
      (fun _ => true) ⟨[], []⟩ "v" _ rfl).1 "10485760" 10485760 rfl (by decide)

/-- Claim C3: with a successful request that passed the size stage, the fetch
is rejected as a disallowed type exactly when some present signal is fired:
a nonempty content-type containing no allow-listed MIME string, or a present
URL path extension outside the extension allow-list; a missing content-type
or missing extension does not itself cause rejection. -/
theorem type_allowlist (md5 : List Nat → String)
    (net : String → Option Response) (w : String → Bool)
    (st : FetcherState) (url : String) (r : Response)
    (hnet : net url = some r)
    (hpass : size_stage r.contentLength = .sizePass) :
    ((download_single_image md5 net w st url).1 = .badType ↔
      (spec_ct_disallowed r || spec_ext_disallowed r) = true) := by
  have hiff : is_safe_file_type r = false ↔
      (spec_ct_disallowed r || spec_ext_disallowed r) = true := by
    simp only [is_safe_file_type, spec_ct_disallowed, spec_ext_disallowed]
    split_ifs with h1 h2 <;> simp_all
  simp only [download_single_image, hnet, process_response, hpass]
  cases hsafe : is_safe_file_type r
  · simp only [hsafe, Bool.not_false, if_pos rfl]
    simpa using hiff.mp hsafe
  · have hrhs : (spec_ct_disallowed r || spec_ext_disallowed r) ≠ true := by
      intro hr
      have := hiff.mpr hr
      rw [hsafe] at this
      exact Bool.noConfusion this
    simp only [hsafe, Bool.not_true]
    split_ifs <;> simp_all

/-- Witness for C3 at a concrete response: content-type `text/html` with a
`.png` URL makes the disallowed-signal test fire and the fetch is rejected. -/
theorem type_allowlist_witness :
    (download_single_image (fun _ => "h")
        (fun _ => some ⟨"http://x/a.png", some "text/html", none, [1]⟩)
        (fun _ => true) ⟨[], []⟩ "u").1 = Outcome.badType ∧
    (spec_ct_disallowed ⟨"http://x/a.png", some "text/html", none, [1]⟩ ||
      spec_ext_disallowed ⟨"http://x/a.png", some "text/html", none, [1]⟩) = true := by
  refine ⟨?_, by decide⟩
  exact (type_allowlist (fun _ => "h")
    (fun _ => some ⟨"http://x/a.png", some "text/html", none, [1]⟩)
    (fun _ => true) ⟨[], []⟩ "u" ⟨"http://x/a.png", some "text/html", none, [1]⟩
    rfl (by decide)).mpr (by decide)

/-- Counterexample to claim C9 as stated: an empty string is a present
content-length header value that is not a decimal integer string, yet the
fetch does proceed to a later stage (its empty value is falsy in Python, so
the size stage is skipped): here the type stage fires and the result is
`badType`, not the generic conversion failure. -/
theorem empty_content_length_counterexample :
    (Response.contentLength ⟨"http://x/a.png", some "text/html", some "", [1]⟩ = some "") ∧
    pyInt "" = none ∧
    (download_single_image (fun _ => "h")
        (fun _ => some ⟨"http://x/a.png", some "text/html", some "", [1]⟩)
        (fun _ => true) ⟨[], []⟩ "u").1 = Outcome.badType ∧
    Outcome.badType ≠ Outcome.intError := by
  decide

/-- Claim C9 amended: for a response whose content-length header is present,
nonempty, and not accepted by integer conversion, the fetch stops at the size
stage with the generic failure outcome, the body is not read, the state is
unchanged, and the caller sees failure (an empty header value is skipped as
falsy instead). -/
theorem bad_content_length_generic_failure (md5 : List Nat → String)
    (net : String → Option Response) (w : String → Bool)
    (st : FetcherState) (url : String) (r : Response) (s : String)
    (hnet : net url = some r) (hcl : r.contentLength = some s)
    (hs0 : s ≠ "") (hbad : pyInt s = none) :
    download_single_image md5 net w st url = (.intError, false, st) ∧
    outcome_bool .intError = false := by
  constructor
  · simp only [download_single_image, hnet, process_response]
    rw [hcl]
    simp only [size_stage, if_neg hs0, hbad]
  · rfl

/-- Witness for the amended C9 with content-length `"abc"`. -/
theorem bad_content_length_generic_failure_witness :
    download_single_image (fun _ => "h")
        (fun _ => some ⟨"http://x/a.png", some "image/png", some "abc", [1]⟩)
        (fun _ => true) ⟨[], []⟩ "u" = (Outcome.intError, false, ⟨[], []⟩) ∧
    outcome_bool Outcome.intError = false :=
  bad_content_length_generic_failure (fun _ => "h")
    (fun _ => some ⟨"http://x/a.png", some "image/png", some "abc", [1]⟩)
    (fun _ => true) ⟨[], []⟩ "u" ⟨"http://x/a.png", some "image/png", some "abc", [1]⟩
    "abc" rfl rfl (by decide) (by decide)

/-- Claim C1: if a first fetch of content `c` is accepted (inserting its hash)
from a state containing no file with content `c`, then a second fetch that
reaches the dedup stage with byte-identical content returns `duplicate`,
writes no file, leaves the hash set unchanged, is reported as success to the
caller, and exactly one file with content `c` exists afterwards. The same
reasoning applies when the hash was loaded by the startup scan, since only
membership of `md5 c` in the hash set is used. -/
theorem dedup_idempotence (md5 : List Nat → String) (net : String → Option Response)
    (w : String → Bool) (st : FetcherState) (u1 u2 : String)
    (r1 r2 : Response) (c : List Nat)
    (h1 : net u1 = some r1) (hp1 : size_stage r1.contentLength = .sizePass)
    (hsafe1 : is_safe_file_type r1 = true) (hb1 : r1.body = c)
    (hnew : md5 c ∉ st.hashes)
    (hw : w (reserveUniquePath (st.files.map Prod.fst) (get_filename_from_url u1 r1)) = true)
    (h2 : net u2 = some r2) (hp2 : size_stage r2.contentLength = .sizePass)
    (hsafe2 : is_safe_file_type r2 = true) (hb2 : r2.body = c)
    (hnofile : ∀ p ∈ st.files, p.2 ≠ c) :
    ∃ f st1,
      download_single_image md5 net w st u1 = (.accepted f, true, st1) ∧
      download_single_image md5 net w st1 u2 = (.duplicate, true, st1) ∧
      outcome_bool .duplicate = true ∧
      st1.files.countP (fun p => decide (p.2 = c)) = 1 := by
  refine ⟨reserveUniquePath (st.files.map Prod.fst) (get_filename_from_url u1 r1),
    ⟨st.files ++ [(reserveUniquePath (st.files.map Prod.fst)
        (get_filename_from_url u1 r1), c)],
      List.insert (md5 c) st.hashes⟩, ?_, ?_, rfl, ?_⟩
  · simp only [download_single_image, h1, process_response, hp1, hsafe1, hb1,
      Bool.not_true, is_duplicate]
    rw [if_neg (by simp), if_neg (by simp [hnew]), if_pos hw]
  · simp only [download_single_image, h2, process_response, hp2, hsafe2, hb2,
      Bool.not_true, is_duplicate]
    rw [if_neg (by simp), if_pos (by simp)]
  · rw [List.countP_append]
    have hz : st.files.countP (fun p => decide (p.2 = c)) = 0 := by
      rw [List.countP_eq_zero]
      intro p hp
      simpa using hnofile p hp
    rw [hz]
    simp

/-- Witness for C1: an empty store, then two fetches of the same two-byte
image from two URLs. -/
theorem dedup_idempotence_witness :
    ∃ f st1,
      download_single_image (fun b => Nat.repr b.length)
        (fun u => if u = "u1"
          then some ⟨"http://x/a.png", some "image/png", none, [7, 8]⟩
          else some ⟨"http://x/b.png", some "image/png", none, [7, 8]⟩)
        (fun _ => true) ⟨[], []⟩ "u1" = (.accepted f, true, st1) ∧
      download_single_image (fun b => Nat.repr b.length)
        (fun u => if u = "u1"
          then some ⟨"http://x/a.png", some "image/png", none, [7, 8]⟩
          else some ⟨"http://x/b.png", some "image/png", none, [7, 8]⟩)
        (fun _ => true) st1 "u2" = (.duplicate, true, st1) ∧
      outcome_bool .duplicate = true ∧
      st1.files.countP (fun p => decide (p.2 = [7, 8])) = 1 :=
  dedup_idempotence (fun b => Nat.repr b.length)
    (fun u => if u = "u1"
      then some ⟨"http://x/a.png", some "image/png", none, [7, 8]⟩
      else some ⟨"http://x/b.png", some "image/png", none, [7, 8]⟩)
    (fun _ => true) ⟨[], []⟩ "u1" "u2"
    ⟨"http://x/a.png", some "image/png", none, [7, 8]⟩
    ⟨"http://x/b.png", some "image/png", none, [7, 8]⟩ [7, 8]
    (by decide) (by decide) (by decide) rfl (by decide) (by decide)
    (by decide) (by decide) (by decide) rfl (by intro p hp; simp at hp)

theorem countP_outcome_split (l : List Outcome) :
    l.countP (fun o => outcome_bool o) =
      l.countP (fun o => match o with | .accepted _ => true | _ => false)
      + l.countP (fun o => match o with | .duplicate => true | _ => false) := by
  induction l with
  | nil => rfl
  | cons o t ih =>
    rw [List.countP_cons, List.countP_cons, List.countP_cons, ih]
    cases o <;> simp [outcome_bool] <;> omega

theorem download_multiple_eq_outcomes (md5 : List Nat → String)
    (net : String → Option Response) (w : String → Bool) :
    ∀ (urls : List String) (st : FetcherState),
      download_multiple_images md5 net w urls st =
        ((download_outcomes md5 net w urls st).1.countP (fun o => outcome_bool o),
          (download_outcomes md5 net w urls st).2) := by
  intro urls
  induction urls with
  | nil => intro st; rfl
  | cons u t ih =>
    intro st
    simp only [download_multiple_images, download_outcomes]
    by_cases hu : (u.trim == "") = true
    · simp only [hu, if_pos rfl]
      exact ih st
    · rw [if_neg hu, if_neg hu]
      rw [ih]
      simp [List.countP_cons]

theorem download_outcomes_length (md5 : List Nat → String)
    (net : String → Option Response) (w : String → Bool) :
    ∀ (urls : List String) (st : FetcherState),
      (download_outcomes md5 net w urls st).1.length =
        urls.countP (fun u => u.trim != "") := by
  intro urls
  induction urls with
  | nil => intro st; rfl
  | cons u t ih =>
    intro st
    simp only [download_outcomes, List.countP_cons]
    by_cases hu : (u.trim == "") = true
    · have hne : (u.trim != "") = false := by simp_all
      rw [if_pos hu]
      simp [hne, ih]
    · have hne : (u.trim != "") = true := by simp_all
      rw [if_neg hu]
      simp [hne, ih]

/-- Claim C5: `download_multiple_images` attempts exactly the non-blank
(trimmed) URLs, one outcome each and in input order; no failure halts the
iteration, and the returned count is the number of accepted outcomes plus the
number of duplicate outcomes. -/
theorem batch_accounting (md5 : List Nat → String)
    (net : String → Option Response) (w : String → Bool)
    (urls : List String) (st : FetcherState) :
    (download_multiple_images md5 net w urls st).1 =
      (download_outcomes md5 net w urls st).1.countP
        (fun o => match o with | .accepted _ => true | _ => false)
      + (download_outcomes md5 net w urls st).1.countP
        (fun o => match o with | .duplicate => true | _ => false) ∧
    (download_multiple_images md5 net w urls st).2 =
      (download_outcomes md5 net w urls st).2 ∧
    (download_outcomes md5 net w urls st).1.length =
      urls.countP (fun u => u.trim != "") := by
  refine ⟨?_, ?_, download_outcomes_length md5 net w urls st⟩
  · rw [download_multiple_eq_outcomes md5 net w urls st]
    exact countP_outcome_split _
  · rw [download_multiple_eq_outcomes md5 net w urls st]

theorem scan_foldl_mono (md5 : List Nat → String) :
    ∀ (entries : List DirEntry) (hs : List String) (x : String),
      x ∈ hs → x ∈ entries.foldl (scan_step md5) hs := by
  intro entries
  induction entries with
  | nil => intro hs x hx; simpa using hx
  | cons e t ih =>
    intro hs x hx
    refine ih (scan_step md5 hs e) x ?_
    cases e with
    | file nm oc =>
      cases oc with
      | none => exact hx
      | some c => exact List.mem_insert_of_mem hx
    | subdir nm => exact hx

theorem scan_foldl_covers (md5 : List Nat → String) :
    ∀ (entries : List DirEntry) (hs : List String) (nm : String) (c : List Nat),
      DirEntry.file nm (some c) ∈ entries →
      md5 c ∈ entries.foldl (scan_step md5) hs := by
  intro entries
  induction entries with
  | nil => intro hs nm c hmem; simp at hmem
  | cons e t ih =>
    intro hs nm c hmem
    rcases List.mem_cons.mp hmem with heq | htail
    · rw [← heq]
      exact scan_foldl_mono md5 t _ _ (List.mem_insert_self _ _)
    · exact ih _ nm c htail

/-- Claim C6: the startup scan puts the hash of every readable file into the
index; a fetch never removes a hash; a fetch either leaves the hash set
unchanged or (exactly on an accepted download) inserts the hash of the
persisted body — scan and accepted-insert are the only mutators; and the
covering invariant "every persisted byte-content has its hash in the set" is
preserved by every fetch. -/
theorem hash_index_invariant (md5 : List Nat → String)
    (net : String → Option Response) (w : String → Bool)
    (st : FetcherState) (url : String)
    (entries : List DirEntry) :
    (∀ nm c, DirEntry.file nm (some c) ∈ entries →
      md5 c ∈ load_existing_hashes md5 true entries) ∧
    st.hashes ⊆ (download_single_image md5 net w st url).2.2.hashes ∧
    ((download_single_image md5 net w st url).2.2.hashes = st.hashes ∨
      ∃ r f, net url = some r ∧
        (download_single_image md5 net w st url).1 = .accepted f ∧
        (download_single_image md5 net w st url).2.2.hashes =
          List.insert (md5 r.body) st.hashes) ∧
    ((∀ p ∈ st.files, md5 p.2 ∈ st.hashes) →
      ∀ p ∈ (download_single_image md5 net w st url).2.2.files,
        md5 p.2 ∈ (download_single_image md5 net w st url).2.2.hashes) := by
  refine ⟨?_, ?_, ?_, ?_⟩
  · intro nm c hmem
    simpa [load_existing_hashes] using scan_foldl_covers md5 entries [] nm c hmem
  · unfold download_single_image
    cases hnet : net url with
    | none => simp
    | some r =>
      unfold process_response
      cases hs : size_stage r.contentLength
      · simp only [hs]; simp
      · simp only [hs]; simp
      · simp only [hs]
        split_ifs <;> intro x hx <;> simp_all [List.mem_insert_iff]
  · unfold download_single_image
    cases hnet : net url with
    | none => simp
    | some r =>
      unfold process_response
      cases hs : size_stage r.contentLength
      · simp only [hs]; simp
      · simp only [hs]; simp
      · simp only [hs]
        split_ifs with h1 h2 h3
        · simp
        · simp
        · right
          exact ⟨r, _, rfl, rfl, rfl⟩
        · simp
  · unfold download_single_image
    cases hnet : net url with
    | none => intro hcov; simpa using hcov
    | some r =>
      unfold process_response
      cases hs : size_stage r.contentLength
      · simp only [hs]; intro hcov; simpa using hcov
      · simp only [hs]; intro hcov; simpa using hcov
      · simp only [hs]
        split_ifs with h1 h2 h3
        · intro hcov; simpa using hcov
        · intro hcov; simpa using hcov
        · intro hcov p hp
          simp only [List.mem_append] at hp
          rcases hp with hin | hone
          · exact List.mem_insert_of_mem (hcov p hin)
          · rw [List.mem_singleton] at hone
            rw [hone]
            simp
        · intro hcov; simpa using hcov

/-- Witness for C6: a concrete startup scan covers the single readable file,
and a concrete rejected fetch keeps the hash set intact. -/
theorem hash_index_invariant_witness :
    ((fun b => Nat.repr b.length) [5, 6] ∈
      load_existing_hashes (fun b => Nat.repr b.length) true
        [DirEntry.file "a.png" (some [5, 6])]) ∧
    (FetcherState.hashes ⟨[], ["2"]⟩ ⊆
      (download_single_image (fun b => Nat.repr b.length)
        (fun _ => some ⟨"http://x/a.png", some "text/html", none, [1]⟩)
        (fun _ => true) ⟨[], ["2"]⟩ "u").2.2.hashes) := by
  constructor
  · exact (hash_index_invariant (fun b => Nat.repr b.length)
      (fun _ => some ⟨"http://x/a.png", some "text/html", none, [1]⟩)
      (fun _ => true) ⟨[], ["2"]⟩ "u"
      [DirEntry.file "a.png" (some [5, 6])]).1 "a.png" [5, 6] (by decide)
  · exact (hash_index_invariant (fun b => Nat.repr b.length)
      (fun _ => some ⟨"http://x/a.png", some "text/html", none, [1]⟩)
      (fun _ => true) ⟨[], ["2"]⟩ "u"
      [DirEntry.file "a.png" (some [5, 6])]).2.1

/-- Claim C8: startup makes the collection directory exist (creating it only
when absent, so the create is idempotent); when the directory pre-exists the
index is the best-effort scan of its entries; startup fails exactly when the
directory is absent and creation fails (fatal); and an unreadable file is
silently skipped by the scan and never fails initialization. -/
theorem startup_correct (md5 : List Nat → String) (dirExists : Bool)
    (entries : List DirEntry) (mkdirOk : Bool) :
    (∀ hs ex, startup md5 dirExists entries mkdirOk = some (hs, ex) → ex = true) ∧
    (dirExists = true → startup md5 dirExists entries mkdirOk =
      some (load_existing_hashes md5 true entries, true)) ∧
    (startup md5 dirExists entries mkdirOk = none ↔
      dirExists = false ∧ mkdirOk = false) ∧
    (∀ es1 es2 nm,
      load_existing_hashes md5 dirExists (es1 ++ DirEntry.file nm none :: es2) =
        load_existing_hashes md5 dirExists (es1 ++ es2)) := by
  refine ⟨?_, ?_, ?_, ?_⟩
  · intro hs ex hst
    unfold startup at hst
    split_ifs at hst with hcond
    · have hp := Option.some.inj hst
      have h2 := congrArg Prod.snd hp
      simpa using h2.symm
  · intro hd
    unfold startup
    rw [hd]
    simp
  · unfold startup
    cases dirExists <;> cases mkdirOk <;> simp
  · intro es1 es2 nm
    unfold load_existing_hashes
    cases dirExists <;> simp [List.foldl_append, scan_step]

/-- Witness for C8: with an existing directory holding one readable and one
unreadable file, startup succeeds and indexes exactly the readable content;
the unreadable entry is skipped. -/
theorem startup_correct_witness :
    startup (fun b => Nat.repr b.length) true
      [DirEntry.file "a.png" (some [5, 6]), DirEntry.file "bad" none] true =
      some (load_existing_hashes (fun b => Nat.repr b.length) true
        [DirEntry.file "a.png" (some [5, 6]), DirEntry.file "bad" none], true) ∧
    load_existing_hashes (fun b => Nat.repr b.length) true
      ([] ++ DirEntry.file "bad" none :: [DirEntry.file "a.png" (some [5, 6])]) =
      load_existing_hashes (fun b => Nat.repr b.length) true
        ([] ++ [DirEntry.file "a.png" (some [5, 6])]) := by
  constructor
  · exact (startup_correct (fun b => Nat.repr b.length) true
      [DirEntry.file "a.png" (some [5, 6]), DirEntry.file "bad" none] true).2.1 rfl
  · exact (startup_correct (fun b => Nat.repr b.length) true
      [DirEntry.file "a.png" (some [5, 6])] true).2.2.2 [] [DirEntry.file "a.png" (some [5, 6])] "bad"
